import Mathlib

/-!
Verification of the SubtreeSync repository (a Python wrapper around
git-subtree operations) against its natural-language specification.

The Python code is shallowly embedded: JSON-backed registry state becomes a
Lean list of entries, subprocess launches become an explicit outcome value,
and the interactive prompts become explicit boolean inputs.  Every
definition below is translated from the named source function.
-/

/-- One managed sub-repository record, as stored in `subtree_repos.json`.
Mirrors the dict entries handled by `src/src/utils.py` and
`src/subtreesync/utils.py`.  The `name` key is mandatory in the code
(`repo_info["name"]` in `save_subtree_repo`); the remaining keys are read
with `dict.get` and a default, hence `Option`.  The Python `prefix` key is
called `prefixPath` here. -/
structure SubtreeEntry where
  name : String
  remote : Option String := none
  prefixPath : Option String := none
  branch : Option String := none
  split_branch : Option String := none
  added_time : Option String := none
deriving DecidableEq, Repr

/-- Model of `load_subtree_repos` (src/src/utils.py lines 47-56): reads the
persisted JSON file and returns its `repos` list.  In this embedding the
persisted store is represented by the decoded list itself, so the read-back
is the identity on the store. -/
def load_subtree_repos (store : List SubtreeEntry) : List SubtreeEntry := store

/-- Model of `find_repo_by_name` (src/src/utils.py lines 58-72): first entry
whose `name` equals the argument, else `None`. -/
def find_repo_by_name (store : List SubtreeEntry) (n : String) : Option SubtreeEntry :=
  store.find? (fun r => r.name == n)

/-- Model of `save_subtree_repo` (src/src/utils.py lines 102-122, and the
same upsert loop in src/subtreesync/utils.py lines 187-216): scan the list,
replace the first entry with the same name (`repos[i] = repo_info; break`),
otherwise append. -/
def save_subtree_repo : List SubtreeEntry → SubtreeEntry → List SubtreeEntry
  | [], e => [e]
  | r :: rs, e => if r.name = e.name then e :: rs else r :: save_subtree_repo rs e

/-- Model of `delete_subtree_repo` (src/src/utils.py lines 74-100, and the
same filter in src/subtreesync/utils.py lines 150-185): filter out every
entry with the given name; if the length is unchanged report `False` and do
not rewrite the store, else persist the filtered list and report `True`. -/
def delete_subtree_repo (store : List SubtreeEntry) (n : String) : Bool × List SubtreeEntry :=
  let filtered := store.filter (fun r => r.name != n)
  if filtered.length = store.length then (false, store) else (true, filtered)

/-- Boolean membership test used to state the registry claims: does some
entry of the store carry the given name. -/
def containsName (store : List SubtreeEntry) (n : String) : Bool :=
  store.any (fun r => r.name == n)

/-- Registry invariant from the spec (section 3): entry names are unique
within a workspace collection. -/
def NodupNames (store : List SubtreeEntry) : Prop :=
  (store.map (fun r => r.name)).Nodup

instance (store : List SubtreeEntry) : Decidable (NodupNames store) := by
  unfold NodupNames; infer_instance

/-- A calendar date, input of the `datetime.datetime.now().strftime` call in
`get_split_branch_name` (src/src/split.py lines 56-64). -/
structure PyDate where
  year : Nat
  month : Nat
  day : Nat
deriving DecidableEq, Repr

/-- Zero-padded two-digit rendering of a number below 100, as produced by
the strftime fields used in the code. -/
def zfill2 (n : Nat) : String :=
  if n < 10 then "0" ++ toString n else toString n

/-- Model of `datetime.datetime.now().strftime("%y%m%d")` applied to a given
date: two-digit year (year modulo 100), two-digit month, two-digit day. -/
def strftime_yymmdd (d : PyDate) : String :=
  zfill2 (d.year % 100) ++ zfill2 d.month ++ zfill2 d.day

/-- Model of `get_split_branch_name` (src/src/split.py lines 56-64), with the
current date passed explicitly. -/
def get_split_branch_name (repo_name : String) (today : PyDate) : String :=
  repo_name ++ "#ST" ++ strftime_yymmdd today

/-- Default whitespace recognised by Python `str.strip()` (ASCII part). -/
def isPySpace (c : Char) : Bool :=
  c = ' ' || c = '\t' || c = '\n' || c = '\r' || c = '\x0b' || c = '\x0c'

/-- Drop leading whitespace characters. -/
def dropLeadingSpace : List Char → List Char
  | [] => []
  | c :: cs => if isPySpace c then dropLeadingSpace cs else c :: cs

/-- Model of Python `str.strip()`: remove leading and trailing
whitespace. -/
def pyStrip (s : String) : String :=
  String.mk ((dropLeadingSpace (dropLeadingSpace s.toList).reverse).reverse)

/-- Outcome of attempting to launch and run the child process in
`run_command` (src/src/utils.py lines 124-216): either `subprocess.Popen`
raises `FileNotFoundError`, or some other exception is raised, or the child
runs to completion producing decoded stdout lines (in the order read),
decoded stderr text, and an exit code. -/
inductive Launch where
  | notFound
  | raisesOther (msg : String)
  | runs (stdoutLines : List String) (stderrText : String) (returncode : Int)
deriving DecidableEq, Repr

/-- The message printed and returned by `run_command` on
`FileNotFoundError` (src/src/utils.py lines 197-201). -/
def notFoundMsg (prog : String) : String :=
  "错误: 命令或程序 '" ++ prog ++ "' 未找到。请确保它在系统PATH中。"

/-- The message returned by `run_command` on any other exception
(src/src/utils.py lines 202-207). -/
def unexpectedMsg (msg : String) : String :=
  "命令执行时发生意外错误: " ++ msg

/-- Model of `run_command` (src/src/utils.py lines 124-216, identical in
src/subtreesync/utils.py lines 242-334).  In the normal case `full_stdout`
accumulates the decoded stdout lines one by one, `full_stderr` is appended
only when the decoded stderr text is nonempty, and the function returns
`(returncode == 0, (full_stdout + full_stderr).strip())`.  The two
exceptional branches return `False` with their diagnostic message. -/
def run_command (cmd : List String) (launch : Launch) : Bool × String :=
  match launch with
  | Launch.notFound => (false, notFoundMsg (cmd.headD ("")))
  | Launch.raisesOther msg => (false, unexpectedMsg msg)
  | Launch.runs stdoutLines stderrText code =>
      let full_stdout := stdoutLines.foldl (fun acc line => acc ++ line) ("")
      let full_stderr := if stderrText = "" then "" else stderrText
      let output := full_stdout ++ full_stderr
      (code == 0, pyStrip output)

/-- One write issued by `run_command` to the invoking terminal: a decoded
stdout line forwarded to `sys.stdout`, or the decoded stderr text forwarded
to `sys.stderr`. -/
inductive StreamWrite where
  | toOut (s : String)
  | toErr (s : String)
deriving DecidableEq, Repr

/-- Whether a terminal write goes to standard output. -/
def isOutWrite : StreamWrite → Bool
  | StreamWrite.toOut _ => true
  | StreamWrite.toErr _ => false

/-- The sequence of terminal writes performed by `run_command` in the normal
case (src/src/utils.py lines 149-186): every stdout line is written as it is
read, the stdout pipe is drained to EOF, and only then is stderr read in one
piece and written when nonempty. -/
def run_command_writes (stdoutLines : List String) (stderrText : String) : List StreamWrite :=
  stdoutLines.map StreamWrite.toOut ++
    (if stderrText = "" then [] else [StreamWrite.toErr stderrText])

/-- Branch-selection and command construction of `push_subtree`
(src/src/push.py lines 49-114): the stored `split_branch` is read with
`dict.get`; a missing or empty value aborts with a configuration error
(`None` here models the `return False` path); otherwise the issued command
is `git push <remote> <split_branch>:<branch>` with the stored value used
verbatim. -/
def push_subtree_cmd (r : SubtreeEntry) : Option (List String) :=
  match r.split_branch with
  | none => none
  | some sb =>
      if sb == "" then none
      else some (["push", r.remote.getD (""), sb ++ ":" ++ r.branch.getD ("main")])

/-- The split branch actually used by `split_subtree` (src/src/split.py
lines 178-191): always `get_split_branch_name(name)`, regardless of any
stored `split_branch` value. -/
def split_subtree_branch (r : SubtreeEntry) (today : PyDate) : String :=
  get_split_branch_name r.name today

/-- The git command list built by `split_subtree` (src/src/split.py
line 191). -/
def split_subtree_cmd (r : SubtreeEntry) (today : PyDate) : List String :=
  ["subtree", "split", "--prefix=" ++ r.prefixPath.getD (""),
   "--branch=" ++ split_subtree_branch r today, "--rejoin"]

/-- Split a character list at every slash. -/
def splitOnSlash : List Char → List (List Char)
  | [] => [[]]
  | c :: cs =>
      let rest := splitOnSlash cs
      if c = '/' then [] :: rest
      else
        match rest with
        | [] => [[c]]
        | p :: ps => (c :: p) :: ps

/-- Join path components with slashes. -/
def joinSlash : List String → String
  | [] => ""
  | [x] => x
  | x :: xs => x ++ "/" ++ joinSlash xs

/-- Model of Python `str(pathlib.Path(p))` on POSIX: split on slashes, drop
empty and single-dot components, keep a root of `/` (or the special double
slash `//`), and render `.` when nothing remains. -/
def pathlibStr (p : String) : String :=
  let cs := p.toList
  let root :=
    if cs.take 2 = ['/', '/'] ∧ cs.take 3 ≠ ['/', '/', '/'] then "//"
    else if cs.take 1 = ['/'] then "/" else ""
  let comps := (splitOnSlash cs).filter (fun c => c ≠ [] ∧ c ≠ ['.'])
  if comps.isEmpty then (if root = "" then "." else root)
  else root ++ joinSlash (comps.map (fun c => String.mk c))

/-- The safety guard around `shutil.rmtree` in `remove_subtree`
(src/src/remove.py line 219) and `remove_all_subtrees` (line 342):
`str(prefix_path) != "." and str(prefix_path) != "/" and prefix_path.exists()`. -/
def rmtree_guard (prefixStr : String) (pathExists : Bool) : Bool :=
  (prefixStr != ".") && (prefixStr != "/") && pathExists

/-- Whether `remove_subtree` (src/src/remove.py lines 213-233) reaches the
`shutil.rmtree` call for a given prefix: the user must have chosen to delete
local files, the path must exist, and the safety guard must pass. -/
def remove_subtree_deletes (delete_files pathExists : Bool) (pfx : String) : Bool :=
  delete_files && pathExists && rmtree_guard (pathlibStr pfx) pathExists

/-- Whether one iteration of `remove_all_subtrees` (src/src/remove.py lines
336-353) reaches the `shutil.rmtree` call; the structure is identical to the
single-entry variant. -/
def remove_all_subtrees_deletes (delete_files pathExists : Bool) (pfx : String) : Bool :=
  delete_files && pathExists && rmtree_guard (pathlibStr pfx) pathExists

/-- The command-line arguments consulted by the batch operations:
`args.name` and `args.yes`. -/
structure CliArgs where
  name : Option String := none
  yes : Bool := false

/-- Entry selection shared by `pull_all_subtrees` (src/src/pull.py lines
124-129) and `push_all_subtrees` (src/src/push.py lines 170-175): all repos,
or only those matching `args.name`. -/
def selectRepos (repos : List SubtreeEntry) (argName : Option String) : List SubtreeEntry :=
  match argName with
  | none => repos
  | some n => repos.filter (fun r => r.name == n)

/-- Result summary of a batch operation: overall flag, tallied success and
failure counts, and the entries attempted in order. -/
structure BatchReport where
  ok : Bool
  successes : Nat
  failures : Nat
  attempted : List SubtreeEntry
deriving DecidableEq, Repr

/-- Report produced by every early-return (`return False`) path of the
batch operations: nothing attempted, nothing counted. -/
def emptyFail : BatchReport :=
  { ok := false, successes := 0, failures := 0, attempted := [] }

/-- The sequential batch loop shared by `pull_all_subtrees` (src/src/pull.py
lines 137-145) and `push_all_subtrees` (src/src/push.py lines 183-191): each
entry is attempted exactly once in order; a success increments
`success_count`, a failure increments `fail_count`, and the loop continues
either way. -/
def runBatch (op : SubtreeEntry → Bool) : List SubtreeEntry → Nat × Nat × List SubtreeEntry
  | [] => (0, 0, [])
  | r :: rest =>
      let firstOk := op r
      let tailRes := runBatch op rest
      (if firstOk then tailRes.1 + 1 else tailRes.1,
       if firstOk then tailRes.2.1 else tailRes.2.1 + 1,
       r :: tailRes.2.2)

/-- Environment consulted by `push_all_subtrees`: result of
`git rev-parse --is-inside-work-tree`, result and output of
`git status --porcelain`, the configured repos, the answer to the batch
confirmation prompt, and the per-entry outcome of `push_subtree`. -/
structure PushEnv where
  revParseOk : Bool
  statusOk : Bool
  statusOut : String
  repos : List SubtreeEntry
  confirmAll : Bool
  pushResult : SubtreeEntry → Bool

/-- Model of `push_all_subtrees` (src/src/push.py lines 116-200): abort
unless inside a git repository; abort when `git status --porcelain`
succeeds with nonempty (stripped) output, before any entry is pushed; abort
on an empty registry, an unknown `--name`, or a declined confirmation;
otherwise run the batch loop and succeed iff the failure count is zero. -/
def push_all_subtrees (env : PushEnv) (args : CliArgs) : BatchReport :=
  if ¬ env.revParseOk then emptyFail
  else if env.statusOk ∧ pyStrip env.statusOut ≠ "" then emptyFail
  else if env.repos.isEmpty then emptyFail
  else
    let selected := selectRepos env.repos args.name
    if args.name.isSome ∧ selected.isEmpty then emptyFail
    else if ¬ args.yes ∧ ¬ env.confirmAll then emptyFail
    else
      let res := runBatch env.pushResult selected
      { ok := res.2.1 == 0, successes := res.1, failures := res.2.1,
        attempted := res.2.2 }

/-- Environment consulted by `pull_all_subtrees`: result of
`validate_git_repo()`, result of `check_working_tree()` (dirty flag), the
answer to the continue-despite-changes prompt, the configured repos, the
batch confirmation answer, and the per-entry outcome of `pull_subtree`. -/
structure PullEnv where
  validRepo : Bool
  dirty : Bool
  confirmDirty : Bool
  repos : List SubtreeEntry
  confirmAll : Bool
  pullResult : SubtreeEntry → Bool

/-- Model of `pull_all_subtrees` (src/src/pull.py lines 73-154): abort
unless inside a git repository; when the working tree is dirty only warn and
ask whether to continue, aborting solely on a declined answer; abort on an
empty registry, an unknown `--name`, or a declined confirmation; otherwise
run the batch loop and succeed iff the failure count is zero. -/
def pull_all_subtrees (env : PullEnv) (args : CliArgs) : BatchReport :=
  if ¬ env.validRepo then emptyFail
  else if env.dirty ∧ ¬ env.confirmDirty then emptyFail
  else if env.repos.isEmpty then emptyFail
  else
    let selected := selectRepos env.repos args.name
    if args.name.isSome ∧ selected.isEmpty then emptyFail
    else if ¬ args.yes ∧ ¬ env.confirmAll then emptyFail
    else
      let res := runBatch env.pullResult selected
      { ok := res.2.1 == 0, successes := res.1, failures := res.2.1,
        attempted := res.2.2 }

/-- Concrete entry used by witnesses: bare record named `foo`. -/
def entryFoo : SubtreeEntry := { name := "foo" }

/-- Concrete entry named `foo` carrying an explicitly stored
`split_branch`. -/
def entryFooCustom : SubtreeEntry := { name := "foo", split_branch := some ("custom") }

/-- Concrete entry whose stored `split_branch` is the empty string. -/
def entryEmptyBranch : SubtreeEntry := { name := "baz", split_branch := some ("") }

/-- Concrete fully-populated entry named `bar`. -/
def entryBar : SubtreeEntry :=
  { name := "bar", remote := some ("https://example.com/bar.git"),
    prefixPath := some ("vendor/bar"), branch := some ("dev"),
    split_branch := some ("mybranch") }

/-- Replacement record named `bar`, used to exercise the upsert. -/
def entryBarNew : SubtreeEntry :=
  { name := "bar", remote := some ("https://example.com/bar2.git") }

/-- Concrete date 2024-03-05. -/
def dateFoo : PyDate := { year := 2024, month := 3, day := 5 }

/-- Push environment with a dirty working tree. -/
def pushEnvDirty : PushEnv :=
  { revParseOk := true, statusOk := true, statusOut := " M file.txt\n",
    repos := [entryBar], confirmAll := true, pushResult := fun _ => true }

/-- Push environment with a clean working tree and two configured repos. -/
def pushEnvClean : PushEnv :=
  { revParseOk := true, statusOk := true, statusOut := "",
    repos := [entryBar, entryFoo], confirmAll := false,
    pushResult := fun r => r.name == "bar" }

/-- Pull environment with a dirty working tree and a confirming user. -/
def pullEnvDirty : PullEnv :=
  { validRepo := true, dirty := true, confirmDirty := true,
    repos := [entryFoo], confirmAll := true, pullResult := fun _ => true }

/-- Pull environment with a clean working tree and two configured repos. -/
def pullEnvClean : PullEnv :=
  { validRepo := true, dirty := false, confirmDirty := false,
    repos := [entryBar, entryFoo], confirmAll := false,
    pullResult := fun r => r.name == "foo" }

/-- Arguments with `--yes` set and no name filter. -/
def cliYes : CliArgs := { name := none, yes := true }

/-- Upserting an entry whose name is already present replaces the first
matching position: the result is `store.set i e` for the first index `i`
bearing the name. -/
theorem save_eq_set_of_contains (store : List SubtreeEntry) (e : SubtreeEntry)
    (h : containsName store e.name = true) :
    ∃ i, ∃ hi : i < store.length,
      (store.get ⟨i, hi⟩).name = e.name ∧ save_subtree_repo store e = store.set i e := by
  induction store with
  | nil => simp [containsName] at h
  | cons r rs ih =>
    by_cases hr : r.name = e.name
    · exact ⟨0, by simp, by simpa using hr, by simp [save_subtree_repo, hr]⟩
    · have h2 : containsName rs e.name = true := by
        simp only [containsName, List.any_cons, Bool.or_eq_true, beq_iff_eq] at h
        simpa [containsName] using h.resolve_left hr
      obtain ⟨i, hi, hname, heq⟩ := ih h2
      refine ⟨i + 1, by simpa using Nat.succ_lt_succ hi, ?_, ?_⟩
      · simpa using hname
      · simp [save_subtree_repo, hr, heq]

/-- Upserting an entry whose name is absent appends it. -/
theorem save_eq_append_of_not_contains (store : List SubtreeEntry) (e : SubtreeEntry)
    (h : containsName store e.name = false) :
    save_subtree_repo store e = store ++ [e] := by
  induction store with
  | nil => simp [save_subtree_repo]
  | cons r rs ih =>
    simp only [containsName, List.any_cons, Bool.or_eq_false_iff, beq_eq_false_iff_ne,
      ne_eq] at h
    have h2 : containsName rs e.name = false := by
      simpa [containsName] using h.2
    simp [save_subtree_repo, h.1, ih h2]

/-- Every name occurring after an upsert occurred before or is the upserted
name. -/
theorem name_mem_save (store : List SubtreeEntry) (e : SubtreeEntry) (x : String)
    (h : x ∈ (save_subtree_repo store e).map (fun r => r.name)) :
    x ∈ store.map (fun r => r.name) ∨ x = e.name := by
  induction store with
  | nil => simpa [save_subtree_repo] using h
  | cons r rs ih =>
    by_cases hr : r.name = e.name
    · simp only [save_subtree_repo, if_pos hr, List.map_cons, List.mem_cons] at h
      rcases h with h | h
      · exact Or.inr h
      · exact Or.inl (by simp only [List.map_cons, List.mem_cons]; exact Or.inr h)
    · simp only [save_subtree_repo, if_neg hr, List.map_cons, List.mem_cons] at h
      rcases h with h | h
      · exact Or.inl (by simp only [List.map_cons, List.mem_cons]; exact Or.inl h)
      · rcases ih h with h2 | h2
        · exact Or.inl (by simp only [List.map_cons, List.mem_cons]; exact Or.inr h2)
        · exact Or.inr h2

/-- The upsert preserves uniqueness of names. -/
theorem save_nodupNames (store : List SubtreeEntry) (e : SubtreeEntry)
    (h : NodupNames store) : NodupNames (save_subtree_repo store e) := by
  induction store with
  | nil => simp [save_subtree_repo, NodupNames]
  | cons r rs ih =>
    simp only [NodupNames, List.map_cons, List.nodup_cons] at h
    by_cases hr : r.name = e.name
    · simp only [NodupNames, save_subtree_repo, if_pos hr, List.map_cons, List.nodup_cons]
      exact ⟨hr ▸ h.1, h.2⟩
    · simp only [NodupNames, save_subtree_repo, if_neg hr, List.map_cons, List.nodup_cons]
      refine ⟨?_, ih h.2⟩
      intro hmem
      rcases name_mem_save rs e r.name hmem with h2 | h2
      · exact h.1 h2
      · exact hr h2

/-- Claim C2: `save_subtree_repo` upserts by name — when an entry with the
same name exists, the first such entry is replaced in place, the collection
size is unchanged, and no duplicate names are introduced (uniqueness of
names is preserved); otherwise the new entry is appended and the size grows
by exactly one. -/
theorem claim_C2 (store : List SubtreeEntry) (e : SubtreeEntry) :
    (containsName store e.name = true →
      (save_subtree_repo store e).length = store.length ∧
      ∃ i, ∃ hi : i < store.length,
        (store.get ⟨i, hi⟩).name = e.name ∧ save_subtree_repo store e = store.set i e) ∧
    (containsName store e.name = false →
      save_subtree_repo store e = store ++ [e] ∧
      (save_subtree_repo store e).length = store.length + 1) ∧
    (NodupNames store → NodupNames (save_subtree_repo store e)) := by
  refine ⟨fun h => ?_, fun h => ?_, fun h => save_nodupNames store e h⟩
  · obtain ⟨i, hi, hname, heq⟩ := save_eq_set_of_contains store e h
    exact ⟨by simp [heq], ⟨i, hi, hname, heq⟩⟩
  · have heq := save_eq_append_of_not_contains store e h
    exact ⟨heq, by simp [heq]⟩

/-- Witness for claim C2 at concrete inputs: replacing the only entry named
`bar` keeps the size at one, and saving a fresh name `foo` appends. -/
theorem claim_C2_witness :
    ((save_subtree_repo [entryBar] entryBarNew).length = [entryBar].length ∧
      ∃ i, ∃ hi : i < [entryBar].length,
        (([entryBar] : List SubtreeEntry).get ⟨i, hi⟩).name = entryBarNew.name ∧
        save_subtree_repo [entryBar] entryBarNew = [entryBar].set i entryBarNew) ∧
    (save_subtree_repo [entryBar] entryFoo = [entryBar] ++ [entryFoo] ∧
      (save_subtree_repo [entryBar] entryFoo).length = [entryBar].length + 1) ∧
    NodupNames (save_subtree_repo [entryBar] entryBarNew) :=
  ⟨(claim_C2 [entryBar] entryBarNew).1 (by decide),
   (claim_C2 [entryBar] entryFoo).2.1 (by decide),
   (claim_C2 [entryBar] entryBarNew).2.2 (by decide)⟩

/-- When no entry bears the name, the delete filter keeps the whole store. -/
theorem filter_eq_self_of_not_contains (store : List SubtreeEntry) (n : String)
    (h : containsName store n = false) :
    store.filter (fun r => r.name != n) = store := by
  rw [List.filter_eq_self]
  intro a ha
  simp only [containsName, List.any_eq_false] at h
  simpa using h a ha

/-- On a duplicate-free store containing the name, the delete filter drops
exactly one entry. -/
theorem length_filter_of_contains (store : List SubtreeEntry) (n : String)
    (hn : NodupNames store) (hc : containsName store n = true) :
    (store.filter (fun r => r.name != n)).length + 1 = store.length := by
  induction store with
  | nil => simp [containsName] at hc
  | cons r rs ih =>
    simp only [NodupNames, List.map_cons, List.nodup_cons] at hn
    by_cases hr : r.name = n
    · have hrs : containsName rs n = false := by
        simp only [containsName, List.any_eq_false]
        intro a ha
        simp only [beq_iff_eq]
        intro hcontra
        have hmem : a.name ∈ rs.map (fun r => r.name) := List.mem_map_of_mem _ ha
        rw [hcontra, ← hr] at hmem
        exact hn.1 hmem
      have hfeq : rs.filter (fun r => r.name != n) = rs :=
        filter_eq_self_of_not_contains rs n hrs
      have hpred : (r.name != n) = false := by simp [hr]
      rw [List.filter_cons, hpred]
      simp [hfeq]
    · have hc2 : containsName rs n = true := by
        simp only [containsName, List.any_cons, Bool.or_eq_true, beq_iff_eq] at hc
        simpa [containsName] using hc.resolve_left hr
      have := ih hn.2 hc2
      simp only [List.filter_cons, bne_iff_ne, ne_eq, hr, not_false_eq_true, if_pos]
      simp only [List.length_cons]
      omega

/-- The delete filter removes every entry bearing the name. -/
theorem not_containsName_filter (store : List SubtreeEntry) (n : String) :
    containsName (store.filter (fun r => r.name != n)) n = false := by
  simp only [containsName, List.any_eq_false]
  intro a ha
  simp only [List.mem_filter, bne_iff_ne, ne_eq] at ha
  simpa using ha.2

/-- Claim C5 (amended): on a registry whose entry names are unique — the
invariant the registry maintains — deleting an absent name returns `False`
and leaves the persisted collection unchanged, while deleting a present name
returns `True`, shrinks the collection by exactly one, and removes the
name. -/
theorem claim_C5 (store : List SubtreeEntry) (n : String) (hn : NodupNames store) :
    (containsName store n = false → delete_subtree_repo store n = (false, store)) ∧
    (containsName store n = true →
      (delete_subtree_repo store n).1 = true ∧
      (delete_subtree_repo store n).2.length + 1 = store.length ∧
      containsName (delete_subtree_repo store n).2 n = false) := by
  constructor
  · intro h
    have := filter_eq_self_of_not_contains store n h
    simp [delete_subtree_repo, this]
  · intro h
    have hlen := length_filter_of_contains store n hn h
    have hne : (store.filter (fun r => r.name != n)).length ≠ store.length := by omega
    have hd : delete_subtree_repo store n = (true, store.filter (fun r => r.name != n)) := by
      simp [delete_subtree_repo, hne]
    rw [hd]
    exact ⟨rfl, hlen, not_containsName_filter store n⟩

/-- Witness for claim C5 at concrete inputs: deleting `baz` from the
one-entry store is a no-op returning `False`; deleting `bar` succeeds and
empties it. -/
theorem claim_C5_witness :
    (delete_subtree_repo [entryBar] ("baz") = (false, [entryBar])) ∧
    ((delete_subtree_repo [entryBar] ("bar")).1 = true ∧
      (delete_subtree_repo [entryBar] ("bar")).2.length + 1 = [entryBar].length ∧
      containsName (delete_subtree_repo [entryBar] ("bar")).2 ("bar") = false) :=
  ⟨(claim_C5 [entryBar] ("baz") (by decide)).1 (by decide),
   (claim_C5 [entryBar] ("bar") (by decide)).2 (by decide)⟩

/-- Counterexample to claim C5 as stated: on the registry state holding two
entries named `foo` (the claim quantifies over every registry state), the
delete reports `True` but shrinks the collection by two, not one. -/
theorem claim_C5_counterexample :
    (delete_subtree_repo [entryFoo, entryFoo] ("foo")).1 = true ∧
    (delete_subtree_repo [entryFoo, entryFoo] ("foo")).2.length = 0 ∧
    ¬ (delete_subtree_repo [entryFoo, entryFoo] ("foo")).2.length + 1 =
        ([entryFoo, entryFoo] : List SubtreeEntry).length := by
  decide

/-- Looking up the saved name after an upsert finds exactly the saved
record. -/
theorem find_save (store : List SubtreeEntry) (e : SubtreeEntry) :
    find_repo_by_name (save_subtree_repo store e) e.name = some e := by
  induction store with
  | nil => simp [save_subtree_repo, find_repo_by_name]
  | cons r rs ih =>
    by_cases hr : r.name = e.name
    · simp [save_subtree_repo, hr, find_repo_by_name]
    · simp only [save_subtree_repo, if_neg hr]
      simp only [find_repo_by_name] at ih ⊢
      rw [List.find?_cons_of_neg _ (by simpa using hr)]
      exact ih

/-- The saved record is a member of the store after an upsert. -/
theorem mem_save (store : List SubtreeEntry) (e : SubtreeEntry) :
    e ∈ save_subtree_repo store e := by
  induction store with
  | nil => simp [save_subtree_repo]
  | cons r rs ih =>
    by_cases hr : r.name = e.name
    · simp [save_subtree_repo, hr]
    · simp only [save_subtree_repo, if_neg hr, List.mem_cons]
      exact Or.inr ih

/-- Claim C6: an entry saved via the registry and then reloaded — through
the full load or through lookup by its name — equals the record that was
saved (save-then-load round-trip, absent external mutation of the backing
file). -/
theorem claim_C6 (store : List SubtreeEntry) (e : SubtreeEntry) :
    find_repo_by_name (load_subtree_repos (save_subtree_repo store e)) e.name = some e ∧
    e ∈ load_subtree_repos (save_subtree_repo store e) :=
  ⟨find_save store e, mem_save store e⟩

/-- Numbers below one hundred render as exactly two digits. -/
theorem zfill2_length (n : Nat) (h : n < 100) : (zfill2 n).length = 2 := by
  interval_cases n <;> rfl

/-- Claim C3: the derived split-branch name is the repository name, the
literal `#ST`, then the date as two-digit year (modulo a century), two-digit
month, and two-digit day; in particular `foo` on 2024-03-05 yields
`foo#ST240305`. -/
theorem claim_C3 (repo_name : String) (d : PyDate) :
    get_split_branch_name repo_name d = repo_name ++ "#ST" ++ strftime_yymmdd d ∧
    strftime_yymmdd d = zfill2 (d.year % 100) ++ zfill2 d.month ++ zfill2 d.day ∧
    (zfill2 (d.year % 100)).length = 2 ∧
    (d.month < 100 → (zfill2 d.month).length = 2) ∧
    (d.day < 100 → (zfill2 d.day).length = 2) ∧
    get_split_branch_name ("foo") dateFoo = "foo#ST240305" := by
  refine ⟨rfl, rfl, ?_, ?_, ?_, by decide⟩
  · exact zfill2_length _ (Nat.mod_lt _ (by norm_num))
  · exact fun h => zfill2_length _ h
  · exact fun h => zfill2_length _ h

/-- Witness for claim C3 at the concrete repository `foo` and date
2024-03-05. -/
theorem claim_C3_witness :
    get_split_branch_name ("foo") dateFoo = "foo" ++ "#ST" ++ strftime_yymmdd dateFoo ∧
    (zfill2 (dateFoo.year % 100)).length = 2 ∧
    (zfill2 dateFoo.month).length = 2 ∧
    (zfill2 dateFoo.day).length = 2 ∧
    get_split_branch_name ("foo") dateFoo = "foo#ST240305" :=
  ⟨(claim_C3 ("foo") dateFoo).1,
   (claim_C3 ("foo") dateFoo).2.2.1,
   (claim_C3 ("foo") dateFoo).2.2.2.1 (by decide),
   (claim_C3 ("foo") dateFoo).2.2.2.2.1 (by decide),
   (claim_C3 ("foo") dateFoo).2.2.2.2.2⟩

/-- Claim C1: the command runner always returns a pair and never raises —
in the normal case success holds iff the exit code is zero; a missing
program yields failure with the descriptive command-not-found message
(which names the program); any other exception yields failure with the
exception text surfaced in the output. -/
theorem claim_C1 (cmd : List String) (launch : Launch) :
    (∀ stdoutLines stderrText code,
      launch = Launch.runs stdoutLines stderrText code →
      ((run_command cmd launch).1 = true ↔ code = 0)) ∧
    (launch = Launch.notFound →
      (run_command cmd launch).1 = false ∧
      (run_command cmd launch).2 = notFoundMsg (cmd.headD ("")) ∧
      ∃ pre post, (run_command cmd launch).2 = pre ++ cmd.headD ("") ++ post) ∧
    (∀ msg, launch = Launch.raisesOther msg →
      (run_command cmd launch).1 = false ∧
      ∃ pre, (run_command cmd launch).2 = pre ++ msg) := by
  refine ⟨?_, ?_, ?_⟩
  · intro stdoutLines stderrText code h
    subst h
    simp [run_command]
  · intro h
    subst h
    exact ⟨rfl, rfl, "错误: 命令或程序 '", "' 未找到。请确保它在系统PATH中。", rfl⟩
  · intro msg h
    subst h
    exact ⟨rfl, "命令执行时发生意外错误: ", rfl⟩

/-- Witness for claim C1: a completed run with exit code zero, a missing
program, and an unexpected exception, each at concrete inputs. -/
theorem claim_C1_witness :
    ((run_command (["git"]) (Launch.runs (["ok\n"]) ("") 0)).1 = true ↔ (0 : Int) = 0) ∧
    ((run_command (["nosuchprog"]) Launch.notFound).1 = false ∧
      (run_command (["nosuchprog"]) Launch.notFound).2 =
        notFoundMsg ((["nosuchprog"] : List String).headD ("")) ∧
      ∃ pre post, (run_command (["nosuchprog"]) Launch.notFound).2 =
        pre ++ (["nosuchprog"] : List String).headD ("") ++ post) ∧
    ((run_command (["git"]) (Launch.raisesOther ("boom"))).1 = false ∧
      ∃ pre, (run_command (["git"]) (Launch.raisesOther ("boom"))).2 = pre ++ "boom") :=
  ⟨(claim_C1 (["git"]) (Launch.runs (["ok\n"]) ("") 0)).1 (["ok\n"]) ("") 0 rfl,
   (claim_C1 (["nosuchprog"]) Launch.notFound).2.1 rfl,
   (claim_C1 (["git"]) (Launch.raisesOther ("boom"))).2.2 ("boom") rfl⟩

/-- Positions within the stdout range of the write trace are stdout
writes. -/
theorem writes_get_lt (stdoutLines : List String) (stderrText : String) (k : Nat)
    (hk : k < stdoutLines.length)
    (hk2 : k < (run_command_writes stdoutLines stderrText).length) :
    isOutWrite ((run_command_writes stdoutLines stderrText).get ⟨k, hk2⟩) = true := by
  induction stdoutLines generalizing k with
  | nil => exact absurd hk (by simp)
  | cons l ls ih =>
    match k with
    | 0 => rfl
    | k + 1 => exact ih k (Nat.lt_of_succ_lt_succ hk) (Nat.lt_of_succ_lt_succ hk2)

/-- Positions past the stdout range of the write trace are stderr
writes. -/
theorem writes_get_ge (stdoutLines : List String) (stderrText : String) (k : Nat)
    (hk : stdoutLines.length ≤ k)
    (hk2 : k < (run_command_writes stdoutLines stderrText).length) :
    isOutWrite ((run_command_writes stdoutLines stderrText).get ⟨k, hk2⟩) = false := by
  induction stdoutLines generalizing k with
  | nil =>
    have hlen : (run_command_writes [] stderrText).length ≤ 1 := by
      by_cases h : stderrText = "" <;> simp [run_command_writes, h]
    have hk0 : k = 0 := by omega
    subst hk0
    by_cases h : stderrText = ""
    · have h0 : run_command_writes [] stderrText = [] := by simp [run_command_writes, h]
      rw [h0] at hk2
      exact absurd hk2 (by simp)
    · have hone : run_command_writes [] stderrText = [StreamWrite.toErr stderrText] := by
        simp [run_command_writes, h]
      rw [List.get_of_eq hone ⟨0, hk2⟩]
      rfl
  | cons l ls ih =>
    match k with
    | 0 => exact absurd hk (by simp)
    | k + 1 => exact ih k (Nat.le_of_succ_le_succ hk) (Nat.lt_of_succ_lt_succ hk2)

/-- Claim C10: for a child process that runs to completion the returned
output is exactly the concatenation of the decoded stdout lines (in the
order read) followed by the entire decoded stderr text, with leading and
trailing whitespace stripped; and in the write trace every stdout write
precedes every stderr write (stdout is fully consumed before stderr is
read). -/
theorem claim_C10 (cmd : List String) (stdoutLines : List String)
    (stderrText : String) (code : Int) :
    (run_command cmd (Launch.runs stdoutLines stderrText code)).2 =
      pyStrip (String.join stdoutLines ++ stderrText) ∧
    (∀ i j, ∀ hi : i < (run_command_writes stdoutLines stderrText).length,
      ∀ hj : j < (run_command_writes stdoutLines stderrText).length,
      isOutWrite ((run_command_writes stdoutLines stderrText).get ⟨i, hi⟩) = true →
      isOutWrite ((run_command_writes stdoutLines stderrText).get ⟨j, hj⟩) = false →
      i < j) := by
  constructor
  · by_cases h : stderrText = "" <;> simp [run_command, String.join, h]
  · intro i j hi hj hout herr
    have hjge : stdoutLines.length ≤ j := by
      by_contra hjlt
      push_neg at hjlt
      have h1 := writes_get_lt stdoutLines stderrText j hjlt hj
      rw [h1] at herr
      exact absurd herr (by decide)
    have hilt : i < stdoutLines.length := by
      by_contra hige
      push_neg at hige
      have h1 := writes_get_ge stdoutLines stderrText i hige hi
      rw [h1] at hout
      exact absurd hout (by decide)
    omega

/-- Witness for claim C10 at a concrete two-line stdout and nonempty
stderr: the output equation holds and the first stdout write precedes the
stderr write. -/
theorem claim_C10_witness :
    (run_command (["git"]) (Launch.runs ([" a\n", "b\n"]) ("warn") 0)).2 =
      pyStrip (String.join ([" a\n", "b\n"]) ++ "warn") ∧
    (0 : Nat) < 2 :=
  ⟨(claim_C10 (["git"]) ([" a\n", "b\n"]) ("warn") 0).1,
   (claim_C10 (["git"]) ([" a\n", "b\n"]) ("warn") 0).2 0 2
     (by decide) (by decide) (by decide) (by decide)⟩

/-- Claim C4 (amended): the push operation uses a stored `split_branch`
verbatim in its issued command, and a missing — or falsy empty — value is a
configuration error that makes the operation fail rather than default to a
derived name; the split operation, by contrast, always uses the derived
dated name, which depends only on the entry name and the date and ignores
any stored `split_branch`. -/
theorem claim_C4 (r : SubtreeEntry) (d : PyDate) :
    (r.split_branch = none → push_subtree_cmd r = none) ∧
    (r.split_branch = some ("") → push_subtree_cmd r = none) ∧
    (∀ sb, r.split_branch = some sb → sb ≠ "" →
      push_subtree_cmd r =
        some (["push", r.remote.getD (""), sb ++ ":" ++ r.branch.getD ("main")])) ∧
    (split_subtree_branch r d = get_split_branch_name r.name d ∧
      ∀ r2, r2.name = r.name → split_subtree_branch r2 d = split_subtree_branch r d) := by
  refine ⟨?_, ?_, ?_, rfl, ?_⟩
  · intro h; simp [push_subtree_cmd, h]
  · intro h; simp [push_subtree_cmd, h]
  · intro sb h hne
    simp [push_subtree_cmd, h, hne]
  · intro r2 h
    simp [split_subtree_branch, h]

/-- Witness for claim C4 at concrete entries: a missing `split_branch`
fails, an empty one fails, a stored `mybranch` is pushed verbatim, and the
split branch ignores the stored value. -/
theorem claim_C4_witness :
    push_subtree_cmd entryFoo = none ∧
    push_subtree_cmd entryEmptyBranch = none ∧
    push_subtree_cmd entryBar =
      some (["push", entryBar.remote.getD (""),
        "mybranch" ++ ":" ++ entryBar.branch.getD ("main")]) ∧
    split_subtree_branch entryFoo dateFoo = split_subtree_branch entryFooCustom dateFoo :=
  ⟨(claim_C4 entryFoo dateFoo).1 rfl,
   (claim_C4 entryEmptyBranch dateFoo).2.1 rfl,
   (claim_C4 entryBar dateFoo).2.2.1 ("mybranch") rfl (by decide),
   (claim_C4 entryFooCustom dateFoo).2.2.2.2 entryFoo rfl⟩

/-- Counterexample to claim C4 as stated: the entry `entryFooCustom`
explicitly stores `split_branch = "custom"`, yet the split operation uses
the derived dated name `foo#ST240305`, not the stored value. -/
theorem claim_C4_counterexample :
    entryFooCustom.split_branch = some ("custom") ∧
    split_subtree_branch entryFooCustom dateFoo = "foo#ST240305" ∧
    ¬ split_subtree_branch entryFooCustom dateFoo = "custom" := by
  decide

/-- Claim C7: whenever the prefix is empty or normalizes to `.` or `/`, the
local-file-deletion step of both remove operations refuses to delete —
independently of the delete-files confirmation and of path existence — and
conversely `shutil.rmtree` is only ever reached for prefixes passing the
safety check. -/
theorem claim_C7 (pfx : String) (delete_files pathExists : Bool) :
    ((pfx = "" ∨ pathlibStr pfx = "." ∨ pathlibStr pfx = "/") →
      remove_subtree_deletes delete_files pathExists pfx = false ∧
      remove_all_subtrees_deletes delete_files pathExists pfx = false) ∧
    (remove_subtree_deletes delete_files pathExists pfx = true →
      pathlibStr pfx ≠ "." ∧ pathlibStr pfx ≠ "/" ∧ pathExists = true) ∧
    (remove_all_subtrees_deletes delete_files pathExists pfx = true →
      pathlibStr pfx ≠ "." ∧ pathlibStr pfx ≠ "/" ∧ pathExists = true) := by
  have hguard : ∀ s : String, s = "." ∨ s = "/" → rmtree_guard s pathExists = false := by
    intro s hs
    rcases hs with hs | hs <;> subst hs <;> simp [rmtree_guard]
  have hsplit : ∀ h : remove_subtree_deletes delete_files pathExists pfx = true,
      pathlibStr pfx ≠ "." ∧ pathlibStr pfx ≠ "/" ∧ pathExists = true := by
    intro h
    simp only [remove_subtree_deletes, rmtree_guard, Bool.and_eq_true, bne_iff_ne,
      ne_eq] at h
    exact ⟨h.2.1.1, h.2.1.2, h.2.2⟩
  refine ⟨?_, hsplit, ?_⟩
  · intro h
    have hval : pathlibStr pfx = "." ∨ pathlibStr pfx = "/" := by
      rcases h with h | h | h
      · left; rw [h]; decide
      · exact Or.inl h
      · exact Or.inr h
    have hg := hguard _ hval
    constructor <;>
      simp [remove_subtree_deletes, remove_all_subtrees_deletes, hg]
  · intro h
    simp only [remove_all_subtrees_deletes, rmtree_guard, Bool.and_eq_true, bne_iff_ne,
      ne_eq] at h
    exact ⟨h.2.1.1, h.2.1.2, h.2.2⟩

/-- Witness for claim C7 at concrete prefixes: the root path `/` and the
dot-normalizing path `./` are refused even with full confirmation and an
existing path; the safe prefix `vendor/bar` that does reach deletion indeed
passes the check. -/
theorem claim_C7_witness :
    (remove_subtree_deletes true true ("/") = false ∧
      remove_all_subtrees_deletes true true ("/") = false) ∧
    (remove_subtree_deletes true true ("./") = false ∧
      remove_all_subtrees_deletes true true ("./") = false) ∧
    (pathlibStr ("vendor/bar") ≠ "." ∧ pathlibStr ("vendor/bar") ≠ "/" ∧ true = true) :=
  ⟨(claim_C7 ("/") true true).1 (by decide),
   (claim_C7 ("./") true true).1 (by decide),
   (claim_C7 ("vendor/bar") true true).2.1 (by decide)⟩

/-- The batch loop attempts exactly the given entries, in order, regardless
of per-entry outcomes. -/
theorem runBatch_attempted (op : SubtreeEntry → Bool) (l : List SubtreeEntry) :
    (runBatch op l).2.2 = l := by
  induction l with
  | nil => rfl
  | cons r rest ih => simp [runBatch, ih]

/-- The batch loop counts the successful entries. -/
theorem runBatch_successes (op : SubtreeEntry → Bool) (l : List SubtreeEntry) :
    (runBatch op l).1 = l.countP op := by
  induction l with
  | nil => rfl
  | cons r rest ih => cases h : op r <;> simp [runBatch, List.countP_cons, ih, h]

/-- The batch loop counts the failing entries. -/
theorem runBatch_failures (op : SubtreeEntry → Bool) (l : List SubtreeEntry) :
    (runBatch op l).2.1 = l.countP (fun r => ! op r) := by
  induction l with
  | nil => rfl
  | cons r rest ih => cases h : op r <;> simp [runBatch, List.countP_cons, ih, h]

/-- Successes and failures together exhaust the attempted entries. -/
theorem countP_add_countP_not (op : SubtreeEntry → Bool) (l : List SubtreeEntry) :
    l.countP op + l.countP (fun r => ! op r) = l.length := by
  induction l with
  | nil => rfl
  | cons r rest ih => cases h : op r <;> simp [List.countP_cons, h] <;> omega

/-- Claim C8: with uncommitted changes in the working tree the push batch
fails fast — it returns failure with no entry attempted, so the push step is
never reached — whereas the pull batch, once the user confirms the warning,
behaves exactly as it does on a clean working tree. -/
theorem claim_C8 (pe : PushEnv) (pa : CliArgs) (qe : PullEnv) (qa : CliArgs) :
    (pe.statusOk = true → pyStrip pe.statusOut ≠ "" →
      (push_all_subtrees pe pa).ok = false ∧ (push_all_subtrees pe pa).attempted = []) ∧
    (qe.dirty = true → qe.confirmDirty = true →
      pull_all_subtrees qe qa = pull_all_subtrees { qe with dirty := false } qa) := by
  constructor
  · intro hs ho
    by_cases hr : pe.revParseOk
    · have hfail : push_all_subtrees pe pa = emptyFail := by
        simp [push_all_subtrees, hr, hs, ho]
      rw [hfail]
      exact ⟨rfl, rfl⟩
    · have hfail : push_all_subtrees pe pa = emptyFail := by
        simp [push_all_subtrees, hr]
      rw [hfail]
      exact ⟨rfl, rfl⟩
  · intro hd hc
    simp [pull_all_subtrees, hd, hc]

/-- Witness for claim C8 at concrete environments: a dirty push environment
yields failure with nothing attempted, and a dirty-but-confirmed pull
environment behaves as the clean one. -/
theorem claim_C8_witness :
    ((push_all_subtrees pushEnvDirty cliYes).ok = false ∧
      (push_all_subtrees pushEnvDirty cliYes).attempted = []) ∧
    pull_all_subtrees pullEnvDirty cliYes =
      pull_all_subtrees { pullEnvDirty with dirty := false } cliYes :=
  ⟨(claim_C8 pushEnvDirty cliYes pullEnvDirty cliYes).1 rfl (by decide),
   (claim_C8 pushEnvDirty cliYes pullEnvDirty cliYes).2 rfl rfl⟩

/-- Claim C9: whenever the batch loop is reached, both pull and push
process the selected entries strictly sequentially in list order, attempt
every entry exactly once even after earlier failures, tally per-entry
successes and failures, and report overall success iff the failure count is
zero. -/
theorem claim_C9 (pe : PushEnv) (pa : CliArgs) (qe : PullEnv) (qa : CliArgs) :
    (pe.revParseOk = true →
      (pe.statusOk = true → pyStrip pe.statusOut = "") →
      pe.repos ≠ [] →
      pa.yes = true →
      selectRepos pe.repos pa.name ≠ [] →
      (push_all_subtrees pe pa).attempted = selectRepos pe.repos pa.name ∧
      (push_all_subtrees pe pa).successes =
        (selectRepos pe.repos pa.name).countP pe.pushResult ∧
      (push_all_subtrees pe pa).failures =
        (selectRepos pe.repos pa.name).countP (fun r => ! pe.pushResult r) ∧
      (push_all_subtrees pe pa).successes + (push_all_subtrees pe pa).failures =
        (selectRepos pe.repos pa.name).length ∧
      ((push_all_subtrees pe pa).ok = true ↔ (push_all_subtrees pe pa).failures = 0)) ∧
    (qe.validRepo = true →
      (qe.dirty = true → qe.confirmDirty = true) →
      qe.repos ≠ [] →
      qa.yes = true →
      selectRepos qe.repos qa.name ≠ [] →
      (pull_all_subtrees qe qa).attempted = selectRepos qe.repos qa.name ∧
      (pull_all_subtrees qe qa).successes =
        (selectRepos qe.repos qa.name).countP qe.pullResult ∧
      (pull_all_subtrees qe qa).failures =
        (selectRepos qe.repos qa.name).countP (fun r => ! qe.pullResult r) ∧
      (pull_all_subtrees qe qa).successes + (pull_all_subtrees qe qa).failures =
        (selectRepos qe.repos qa.name).length ∧
      ((pull_all_subtrees qe qa).ok = true ↔ (pull_all_subtrees qe qa).failures = 0)) := by
  constructor
  · intro h1 h2 h3 h4 h5
    have hc2 : ¬ (pe.statusOk ∧ pyStrip pe.statusOut ≠ "") := by
      rintro ⟨ha, hb⟩
      exact hb (h2 ha)
    have hc3 : pe.repos.isEmpty = false := by
      cases hx : pe.repos with
      | nil => exact absurd hx h3
      | cons a l => rfl
    have hc4 : (selectRepos pe.repos pa.name).isEmpty = false := by
      cases hx : selectRepos pe.repos pa.name with
      | nil => exact absurd hx h5
      | cons a l => rfl
    have hrep : push_all_subtrees pe pa =
        { ok := (runBatch pe.pushResult (selectRepos pe.repos pa.name)).2.1 == 0,
          successes := (runBatch pe.pushResult (selectRepos pe.repos pa.name)).1,
          failures := (runBatch pe.pushResult (selectRepos pe.repos pa.name)).2.1,
          attempted := (runBatch pe.pushResult (selectRepos pe.repos pa.name)).2.2 } := by
      simp [push_all_subtrees, h1, hc2, hc3, hc4, h4]
    rw [hrep]
    refine ⟨runBatch_attempted _ _, runBatch_successes _ _, runBatch_failures _ _, ?_, ?_⟩
    · rw [runBatch_successes, runBatch_failures]
      exact countP_add_countP_not _ _
    · simp
  · intro h1 h2 h3 h4 h5
    have hc2 : ¬ (qe.dirty = true ∧ qe.confirmDirty = false) := by
      rintro ⟨ha, hb⟩
      rw [h2 ha] at hb
      exact Bool.noConfusion hb
    have hc3 : qe.repos.isEmpty = false := by
      cases hx : qe.repos with
      | nil => exact absurd hx h3
      | cons a l => rfl
    have hc4 : (selectRepos qe.repos qa.name).isEmpty = false := by
      cases hx : selectRepos qe.repos qa.name with
      | nil => exact absurd hx h5
      | cons a l => rfl
    have hrep : pull_all_subtrees qe qa =
        { ok := (runBatch qe.pullResult (selectRepos qe.repos qa.name)).2.1 == 0,
          successes := (runBatch qe.pullResult (selectRepos qe.repos qa.name)).1,
          failures := (runBatch qe.pullResult (selectRepos qe.repos qa.name)).2.1,
          attempted := (runBatch qe.pullResult (selectRepos qe.repos qa.name)).2.2 } := by
      simp [pull_all_subtrees, h1, hc2, hc3, hc4, h4]
    rw [hrep]
    refine ⟨runBatch_attempted _ _, runBatch_successes _ _, runBatch_failures _ _, ?_, ?_⟩
    · rw [runBatch_successes, runBatch_failures]
      exact countP_add_countP_not _ _
    · simp

/-- Witness for claim C9 at concrete clean environments with two entries
each. -/
theorem claim_C9_witness :
    ((push_all_subtrees pushEnvClean cliYes).attempted =
        selectRepos pushEnvClean.repos cliYes.name ∧
      (push_all_subtrees pushEnvClean cliYes).successes =
        (selectRepos pushEnvClean.repos cliYes.name).countP pushEnvClean.pushResult ∧
      (push_all_subtrees pushEnvClean cliYes).failures =
        (selectRepos pushEnvClean.repos cliYes.name).countP
          (fun r => ! pushEnvClean.pushResult r) ∧
      (push_all_subtrees pushEnvClean cliYes).successes +
          (push_all_subtrees pushEnvClean cliYes).failures =
        (selectRepos pushEnvClean.repos cliYes.name).length ∧
      ((push_all_subtrees pushEnvClean cliYes).ok = true ↔
        (push_all_subtrees pushEnvClean cliYes).failures = 0)) ∧
    ((pull_all_subtrees pullEnvClean cliYes).attempted =
        selectRepos pullEnvClean.repos cliYes.name ∧
      (pull_all_subtrees pullEnvClean cliYes).successes =
        (selectRepos pullEnvClean.repos cliYes.name).countP pullEnvClean.pullResult ∧
      (pull_all_subtrees pullEnvClean cliYes).failures =
        (selectRepos pullEnvClean.repos cliYes.name).countP
          (fun r => ! pullEnvClean.pullResult r) ∧
      (pull_all_subtrees pullEnvClean cliYes).successes +
          (pull_all_subtrees pullEnvClean cliYes).failures =
        (selectRepos pullEnvClean.repos cliYes.name).length ∧
      ((pull_all_subtrees pullEnvClean cliYes).ok = true ↔
        (pull_all_subtrees pullEnvClean cliYes).failures = 0)) :=
  ⟨(claim_C9 pushEnvClean cliYes pullEnvClean cliYes).1 rfl (fun _ => rfl)
      (by decide) rfl (by decide),
   (claim_C9 pushEnvClean cliYes pullEnvClean cliYes).2 rfl
      (fun h => absurd h (by decide)) (by decide) rfl (by decide)⟩
